import Mathlib

/-!
Shallow embedding of the scoring, persistence and upload logic of
`decision_matrix_with_gsheets.py` (Land Decision Matrix), together with
theorems settling the specification claims about it.

Numeric code uses exact rational arithmetic (`ℚ`) in place of Python
floats; slider ratings are integers.
-/

namespace DecisionMatrix

/-- The fixed reviewer list, from `persons = ["Maya", "Mike"]` (line 112). -/
def persons : List String := ["Maya", "Mike"]

/-- The session-state rating store: maps (person, option key, criterion) to the
stored slider value, `none` when the key `f"{person}_{opt}_{crit}"` is absent. -/
abbrev Ratings := String → String → String → Option ℤ

/-- The session-state weight store: maps a criterion to the stored weight,
`none` when the key `f"weight_{crit}"` is absent. -/
abbrev Weights := String → Option ℚ

/-- Line 257, `slider_val = st.session_state.get(slider_key, 3)`: a reviewer's
rating for (option, criterion), defaulting to 3 when no rating is stored. -/
def sliderVal (r : Ratings) (person opt crit : String) : ℤ :=
  (r person opt crit).getD 3

/-- Line 286, `df["Weight"] = df["Criteria"].map(lambda c: st.session_state.get(f"weight_{c}", 1.0))`: a criterion's weight, defaulting to 1.0 when none is stored. -/
def weightOf (w : Weights) (crit : String) : ℚ :=
  (w crit).getD 1

/-- Line 283, `df["Average"] = df[available_persons].mean(axis=1)`: the row for
each criterion carries one column per person (lines 255-261), so the mean is
taken over both reviewers' `slider_val` entries. -/
def rowAverage (r : Ratings) (opt crit : String) : ℚ :=
  ((persons.map (fun p => ((sliderVal r p opt crit : ℤ) : ℚ))).sum) / persons.length

/-- Line 287, `df["Weighted"] = df["Average"] * df["Weight"]`. -/
def rowWeighted (r : Ratings) (w : Weights) (opt crit : String) : ℚ :=
  rowAverage r opt crit * weightOf w crit

/-- Line 288, `total_scores[label] = df["Weighted"].sum()`, with the `else`
branch (lines 289-294) giving 0 when `df_rows` is empty, i.e. when the
criteria list is empty. -/
def totalScore (criteria : List String) (r : Ratings) (w : Weights) (opt : String) : ℚ :=
  if criteria = [] then 0
  else (criteria.map (fun c => rowWeighted r w opt c)).sum

/-- Python dict assignment `d[k] = v`: replaces the value in place when the key
is present, appends the binding otherwise (insertion order preserved). -/
def dictSet {β : Type} (d : List (String × β)) (k : String) (v : β) : List (String × β) :=
  if (d.lookup k).isSome then d.map (fun kv => if kv.1 = k then (k, v) else kv)
  else d ++ [(k, v)]

/-- The `total_scores` mapping built by the per-option loop (lines 134, 288):
one entry per option, keyed (as in the source) by the option's label. -/
def computeTotals (options : List String) (labels : String → String)
    (criteria : List String) (r : Ratings) (w : Weights) : List (String × ℚ) :=
  options.foldl (fun acc opt => dictSet acc (labels opt) (totalScore criteria r w opt)) []

/-! ### C1: the total-score formula -/

/-- The per-(option, criterion) mean exactly as claim C1 words it: the
arithmetic mean of the reviewer ratings that are actually present, with the
neutral default 3 used only when no reviewer has rated.  Stated from the
spec's words for comparison with the source's `rowAverage`. -/
def specAvailableMean (r : Ratings) (opt crit : String) : ℚ :=
  let avail := persons.filterMap (fun p => r p opt crit)
  if avail = [] then 3 else ((avail.map (fun v => (v : ℚ))).sum) / avail.length

/-- The total score as claim C1 words it, built on `specAvailableMean`. -/
def specTotalScore (criteria : List String) (r : Ratings) (w : Weights) (opt : String) : ℚ :=
  (criteria.map (fun c => specAvailableMean r opt c * weightOf w c)).sum

/-- A rating store in which Maya has rated ("Opt", "Crit") with 5 and no other
rating is stored. -/
def exOneRated : Ratings := fun p o c =>
  if p = "Maya" ∧ o = "Opt" ∧ c = "Crit" then some 5 else none

/-- The per-(option, criterion) mean the code actually computes, stated
independently of the source's row construction: each reviewer's absent rating
is individually replaced by the slider default 3 and the mean is always taken
over both reviewers. -/
def amendedMean (r : Ratings) (opt crit : String) : ℚ :=
  ((((r "Maya" opt crit).getD 3 : ℤ) : ℚ) + (((r "Mike" opt crit).getD 3 : ℤ) : ℚ)) / 2

/-! ### C3: permutation invariance -/

/-- Swapping the two reviewers' stored ratings at every (option, criterion). -/
def swapReviewers (r : Ratings) : Ratings := fun p o c =>
  if p = "Maya" then r "Mike" o c else if p = "Mike" then r "Maya" o c else r p o c

/-- A weight store holding weight 0 for criterion "Zero" and nothing else. -/
def exZeroWeight : Weights := fun c => if c = "Zero" then some 0 else none

/-! ### C5: ranked output ordering -/

/-- The comparison used by the ranked display: row `a` comes no later than row
`b` when `a`'s total score is at least `b`'s (descending order on scores). -/
def scoreGE (a b : String × ℚ) : Prop := b.2 ≤ a.2

instance : DecidableRel scoreGE := fun a b => inferInstanceAs (Decidable (b.2 ≤ a.2))

instance : IsTotal (String × ℚ) scoreGE := ⟨fun a b => le_total b.2 a.2⟩

instance : IsTrans (String × ℚ) scoreGE := ⟨fun _ _ _ h1 h2 => le_trans h2 h1⟩

/-- Embedding of `result_df.sort_values("Total Score", ascending=False)`
(line 370): pandas
sorts a single column via `nargsort`, which reverses the values, runs numpy's
ascending argsort and reverses the resulting indexer again, so ties keep their
original relative order whenever the underlying argsort is stable; numpy's
default sort runs plain insertion sort (stable) on arrays shorter than 16
elements, and the option count is capped at 10 (line 98).  The call is
therefore a stable descending sort on the score column, embedded here as
insertion sort under the descending comparison `scoreGE`. -/
def rankRows (rows : List (String × ℚ)) : List (String × ℚ) :=
  List.insertionSort scoreGE rows

/-! ### C6: option keys -/

/-- Line 100, `key = f"Option {chr(65+i)}"`: the positional option key. -/
def optionKey (i : ℕ) : String := "Option " ++ String.singleton (Char.ofNat (65 + i))

/-- One pass of the option loop body (lines 99-104) for index `i`: register the
positional key when absent (`option_labels[key] = key`), then store the label
returned by the text input (`edits key current` is the text the user leaves in
the box that was pre-filled with `current`). -/
def labelStep (edits : String → String → String) (labels : List (String × String))
    (i : ℕ) : List (String × String) :=
  let key := optionKey i
  let labels1 := if (labels.lookup key).isSome then labels else labels ++ [(key, key)]
  dictSet labels1 key (edits key ((labels1.lookup key).getD key))

/-- The option-label dictionary after the loop `for i in range(col_count)`
(lines 99-105). -/
def optionLabelsAfter (edits : String → String → String)
    (init : List (String × String)) (colCount : ℕ) : List (String × String) :=
  (List.range colCount).foldl (labelStep edits) init

/-- The key list the loop produces, as a function of the initial key list
alone (helper for reasoning about `optionLabelsAfter`). -/
def keysAfter (ks : List String) (n : ℕ) : List String :=
  (List.range n).foldl
    (fun ks i => ks ++ (if optionKey i ∈ ks then [] else [optionKey i])) ks

/-! ### C7: duplicate uploads -/

/-- The upload loop (lines 158-168): starting from the existing links
(`urls = existing_links.copy()`), every selected file is passed to
`upload_to_drive` and the returned link, when there is one, is appended.
`up` maps a file name to the link the upload returns (`none` when the upload
fails).  The second component counts the calls to `upload_to_drive`. -/
def uploadLoop (urls : List String) (files : List String)
    (up : String → Option String) : List String × ℕ :=
  match files with
  | [] => (urls, 0)
  | f :: fs =>
    let rest := match up f with
      | some link => uploadLoop (urls ++ [link]) fs up
      | none => uploadLoop urls fs up
    (rest.1, rest.2 + 1)

/-! ### C9, C10: `upload_to_drive` (lines 36-71) -/

/-- The environment of one `upload_to_drive` call: whether the temporary file
was created, written, flushed and closed successfully (lines 43-49), the
outcome of the Drive API calls (`some id` when `files().create` and
`permissions().create` both succeed, `none` when one of them raises,
lines 51-55), and the result of each `os.remove` attempt in the `finally`
block (`true` = removal succeeded). -/
structure UploadEnv where
  tmpCreated : Bool
  driveId : Option String
  removeOk : ℕ → Bool

/-- The `try` body (lines 42-56) as a fallible computation: an exception
during temp-file handling or the API calls is an `Except.error`; success
returns the public link (line 56). -/
def uploadBody (env : UploadEnv) : Except String String :=
  if env.tmpCreated then
    match env.driveId with
    | some i => Except.ok ("https://drive.google.com/uc?id=" ++ i)
    | none => Except.error "drive api"
  else Except.error "tempfile"

/-- The deletion retry loop of the `finally` block (lines 63-69), attempting
`os.remove` from index `attempt` with `fuel` tries remaining.  Returns whether
the file was deleted, and the list of back-off delays slept (in seconds,
`delay = initial_delay * (2 ** attempt)` with `initial_delay = 0.1` after each
failed attempt). -/
def cleanupGo (removeOk : ℕ → Bool) (attempt fuel : ℕ) : Bool × List ℚ :=
  match fuel with
  | 0 => (false, [])
  | fuel + 1 =>
    if removeOk attempt then (true, [])
    else
      let rest := cleanupGo removeOk (attempt + 1) fuel
      (rest.1, (1 / 10 : ℚ) * 2 ^ attempt :: rest.2)

/-- The `finally` block (lines 61-71): `max_retries = 5` removal attempts
starting at attempt 0. -/
def cleanup (removeOk : ℕ → Bool) : Bool × List ℚ := cleanupGo removeOk 0 5

/-- The whole of `upload_to_drive`: `except Exception: pass` (lines 58-59)
maps every error of the body to a `None` return, and the `finally` block
(lines 61-71) runs the deletion retries on every exit path whenever the
temporary file was created.  The result is (returned link, no temporary file
left behind?, delays slept). -/
def upload_to_drive (env : UploadEnv) : Option String × Bool × List ℚ :=
  let ret : Option String := match uploadBody env with
    | Except.ok url => some url
    | Except.error _ => none
  let cl : Bool × List ℚ := if env.tmpCreated then cleanup env.removeOk else (true, [])
  (ret, cl.1, cl.2)

/-! ### C8: persistence snapshots (lines 298-365) -/

/-- The `writeAll` semantics at a save site: `sheet.clear()` followed by
`sheet.update("A1", rows)` replaces the whole table with the computed rows; a
site that issues no write (`none`) leaves the old table untouched. -/
def applySave {ρ : Type} (old : List ρ) (write : Option (List ρ)) : List ρ :=
  write.getD old

/-- Save Options (lines 299-303): header plus one row per option key with its
label and image-URL cell (`image_urls.get(k, "")`). -/
def optionsSnapshot (optionLabels : List (String × String))
    (imageUrls : List (String × String)) : List (List String) :=
  ["Key", "Label", "Image URLs"]
    :: optionLabels.map (fun kv => [kv.1, kv.2, (imageUrls.lookup kv.1).getD ""])

/-- The options write is unconditional (lines 299-303). -/
def saveOptions (optionLabels imageUrls : List (String × String)) :
    Option (List (List String)) :=
  some (optionsSnapshot optionLabels imageUrls)

/-- Save Criteria data rows (line 311): one (criterion, weight) row per active
criterion, the weight defaulting to 1.0. -/
def setupSnapshot (criteria : List String) (w : Weights) : List (String × ℚ) :=
  criteria.map (fun c => (c, weightOf w c))

/-- The criteria write is unconditional (lines 309-313). -/
def saveCriteria (criteria : List String) (w : Weights) :
    Option (List (String × ℚ)) :=
  some (setupSnapshot criteria w)

/-- Save Comments data rows (lines 321-326): one (criterion, option label,
comment) row per non-empty comment, criteria in the outer loop and options in
the inner loop. -/
def commentsSnapshot (criteria options : List String) (labels : String → String)
    (comments : String → String → String) : List (String × String × String) :=
  criteria.flatMap (fun crit => options.filterMap (fun opt =>
    if comments crit opt = "" then none
    else some (crit, labels opt, comments crit opt)))

/-- The comments site clears and writes only when a data row exists
(`if len(rows) > 1`, line 327). -/
def saveComments (criteria options : List String) (labels : String → String)
    (comments : String → String → String) :
    Option (List (String × String × String)) :=
  if commentsSnapshot criteria options labels comments = [] then none
  else some (commentsSnapshot criteria options labels comments)

/-- The `all_scores` list (lines 113, 261): one (criterion, person, option, score)
entry appended per option, criterion and reviewer, in loop order. -/
def allScores (options criteria : List String) (r : Ratings) :
    List (String × String × String × ℤ) :=
  options.flatMap (fun opt => criteria.flatMap (fun crit =>
    persons.map (fun p => (crit, p, opt, sliderVal r p opt crit))))

/-- The full-scores site clears and writes only when a score row exists
(`if len(rows) > 1`, line 360). -/
def saveFullScores (options criteria : List String) (r : Ratings) :
    Option (List (String × String × String × ℤ)) :=
  if allScores options criteria r = [] then none
  else some (allScores options criteria r)

/-- Rounding to 2 decimals (`round(np.mean(values), 2)`, line 344).  `np.round`
rounds halves to even; a tie at the third decimal would need a criteria list
repeating one criterion at least eight times, which the data model excludes
(criterion names are unique within the active list), and away from ties every
rounding rule agrees, so the embedding uses `round` (half up). -/
def roundTo2 (q : ℚ) : ℚ := ((round (q * 100) : ℤ) : ℚ) / 100

/-- Save Overview data rows (lines 337-346): one row per criterion holding,
per option, the rounded mean of that criterion/option's entries of
`all_scores`, or an empty cell (`none`) when there are no entries. -/
def overviewSnapshot (options criteria : List String) (r : Ratings) :
    List (String × List (Option ℚ)) :=
  criteria.map (fun crit => (crit, options.map (fun opt =>
    let values := (allScores options criteria r).filterMap
      (fun e => if e.1 = crit ∧ e.2.2.1 = opt then some e.2.2.2 else none)
    if values = [] then none
    else some (roundTo2 ((values.map (fun v => (v : ℚ))).sum / values.length)))))

/-- The overview site clears and writes only when a data row exists
(`if rows`, line 349). -/
def saveOverview (options criteria : List String) (r : Ratings) :
    Option (List (String × List (Option ℚ))) :=
  if overviewSnapshot options criteria r = [] then none
  else some (overviewSnapshot options criteria r)

/-! ### C2: ChangeGuard (modelled from the spec)

The repository source contains no `shouldPersist` / ChangeGuard
implementation: the save sites (lines 298-365) clear and rewrite their
worksheets unconditionally on every rerun.  Sections 2, 4.2 and 4.4 of the
spec describe a hash-based change guard gating those writes; it is modelled
here from the spec's words. -/

/-- Modelled from the spec: a persistence payload, an arbitrary nested
structure of strings, numbers, sequences and string-keyed mappings. -/

inductive Payload where
  | str (s : String)
  | num (q : ℚ)
  | arr (items : List Payload)
  | obj (fields : List (String × Payload))

/-- Modelled from the spec: the canonical whitespace-free serialization with
mapping fields sorted, so that structurally identical payloads serialize
identically regardless of mapping insertion order. -/
def serialize : Payload → String
  | .str s => "\x22" ++ s ++ "\x22"
  | .num q => toString q.num ++ "/" ++ toString q.den
  | .arr items =>
      "[" ++ String.intercalate "," (items.attach.map (fun x => serialize x.1)) ++ "]"
  | .obj fields =>
      "\x7b" ++ String.intercalate ","
          (((fields.attach.map
              (fun kv => "\x22" ++ kv.1.1 ++ "\x22:" ++ serialize kv.1.2)).mergeSort
            (fun a b => a ≤ b)))
        ++ "\x7d"
decreasing_by
  · have h1 := List.sizeOf_lt_of_mem x.2
    simp only [Payload.arr.sizeOf_spec]
    omega
  · have h1 := List.sizeOf_lt_of_mem kv.2
    have h2 : sizeOf kv.1.2 < sizeOf kv.1 := by
      obtain ⟨⟨a, b⟩, hab⟩ := kv
      simp only [Prod.mk.sizeOf_spec]
      omega
    simp only [Payload.obj.sizeOf_spec]
    omega

/-- Modelled from the spec: the content digest of a payload.  The 256-bit
cryptographic digest of the canonical byte string is modelled by the
canonical byte string itself (an injective stand-in; hash collisions are
outside the model). -/
def digest (p : Payload) : String := serialize p

/-- Modelled from the spec: `shouldPersist` is true iff the digest differs
from the one stored for the label, or no prior digest exists. -/
def shouldPersist (st : List (String × String)) (label : String) (p : Payload) : Bool :=
  st.lookup label != some (digest p)

/-- Modelled from the spec: a guarded write; when `shouldPersist` is true the
write is issued (first component) and the digest recorded, otherwise nothing
happens. -/
def gatedSave (st : List (String × String)) (label : String) (p : Payload) :
    Bool × List (String × String) :=
  if shouldPersist st label p then (true, dictSet st label (digest p)) else (false, st)

/-- Example payloads: the same two mapping fields in two insertion orders. -/
def exFields : List (String × Payload) := [("a", .num 1), ("b", .str "x")]

/-- The fields of `exFields` in the opposite insertion order. -/
def exFields' : List (String × Payload) := [("b", .str "x"), ("a", .num 1)]

/-- The function `totalScore` is the sum of the weighted rows in every case (the
empty-criteria branch returns 0, which is also the empty sum). -/
theorem totalScore_eq_sum (criteria : List String) (r : Ratings) (w : Weights) (opt : String) :
    totalScore criteria r w opt = (criteria.map (fun c => rowWeighted r w opt c)).sum := by
  unfold totalScore
  rcases criteria with _ | ⟨c, cs⟩ <;> simp

/-- C1 as stated is false: with one criterion of default weight, Maya's rating
stored as 5 and Mike's rating absent, the code averages Mike in at the slider
default 3 and computes (5+3)/2·1 = 4, while the claim's
"mean of the available ratings" is 5·1 = 5. -/
theorem c1_counterexample :
    totalScore ["Crit"] exOneRated (fun _ => none) "Opt" = 4 ∧
    specTotalScore ["Crit"] exOneRated (fun _ => none) "Opt" = 5 ∧
    totalScore ["Crit"] exOneRated (fun _ => none) "Opt" ≠
      specTotalScore ["Crit"] exOneRated (fun _ => none) "Opt" := by
  refine ⟨?_, ?_, ?_⟩ <;>
    simp [totalScore, specTotalScore, rowWeighted, rowAverage, sliderVal, weightOf,
      specAvailableMean, persons, exOneRated] <;> norm_num

/-- C1 amended: every option's total score is the sum over the active criteria
of (mean of the two reviewers' ratings, each absent rating individually
defaulting to 3) times the criterion's weight (defaulting to 1.0); an empty
criteria list gives total score 0, and an empty option list gives an empty
result mapping. -/
theorem c1_amended_total_score (criteria : List String) (r : Ratings) (w : Weights)
    (labels : String → String) (opt : String) :
    totalScore criteria r w opt
      = (criteria.map (fun c => amendedMean r opt c * weightOf w c)).sum ∧
    totalScore [] r w opt = 0 ∧
    computeTotals [] labels criteria r w = [] := by
  refine ⟨?_, rfl, rfl⟩
  rw [totalScore_eq_sum]
  refine congrArg List.sum (List.map_congr_left fun c _ => ?_)
  unfold rowWeighted rowAverage amendedMean sliderVal persons
  simp

/-- C3: the total score is invariant under reordering the criteria list and
under swapping the two reviewers' ratings. -/
theorem c3_reorder_invariance (criteria criteria' : List String) (r : Ratings)
    (w : Weights) (opt : String) (h : criteria.Perm criteria') :
    totalScore criteria r w opt = totalScore criteria' r w opt ∧
    totalScore criteria (swapReviewers r) w opt = totalScore criteria r w opt := by
  constructor
  · rw [totalScore_eq_sum, totalScore_eq_sum]
    exact (h.map _).sum_eq
  · rw [totalScore_eq_sum, totalScore_eq_sum]
    refine congrArg List.sum (List.map_congr_left fun c _ => ?_)
    unfold rowWeighted rowAverage sliderVal swapReviewers persons
    simp [add_comm]

/-- Witness for C3 at the criteria lists ["a", "b"] / ["b", "a"] and the
concrete rating store `exOneRated`. -/
theorem c3_reorder_invariance_witness :
    totalScore ["a", "b"] exOneRated (fun _ => none) "Opt"
      = totalScore ["b", "a"] exOneRated (fun _ => none) "Opt" ∧
    totalScore ["a", "b"] (swapReviewers exOneRated) (fun _ => none) "Opt"
      = totalScore ["a", "b"] exOneRated (fun _ => none) "Opt" :=
  c3_reorder_invariance ["a", "b"] ["b", "a"] exOneRated (fun _ => none) "Opt"
    (List.Perm.swap "b" "a" [])

/-! ### C4: a zero weight makes a criterion inert -/

/-- C4: when a criterion's stored weight is 0, its weighted contribution is
exactly 0 for every option and every rating assignment, and the total score
equals the total score computed without that criterion; no error is involved
(the scoring function is total). -/
theorem c4_zero_weight_inert (criteria : List String) (r : Ratings) (w : Weights)
    (opt crit : String) (h : w crit = some 0) :
    rowWeighted r w opt crit = 0 ∧
    totalScore criteria r w opt
      = totalScore (criteria.filter (fun c => !(c == crit))) r w opt := by
  have hw : weightOf w crit = 0 := by simp [weightOf, h]
  have hr : rowWeighted r w opt crit = 0 := by simp [rowWeighted, hw]
  refine ⟨hr, ?_⟩
  rw [totalScore_eq_sum, totalScore_eq_sum]
  induction criteria with
  | nil => rfl
  | cons c cs ih =>
    simp only [List.map_cons, List.sum_cons, List.filter_cons]
    by_cases hc : c = crit
    · subst hc
      simp [hr, ih]
    · have hb : (!(c == crit)) = true := by simp [hc]
      simp [hb, ih]

/-- Witness for C4 at criterion "Zero" with stored weight 0. -/
theorem c4_zero_weight_inert_witness :
    rowWeighted exOneRated exZeroWeight "Opt" "Zero" = 0 ∧
    totalScore ["Zero", "Crit"] exOneRated exZeroWeight "Opt"
      = totalScore (["Zero", "Crit"].filter (fun c => !(c == "Zero"))) exOneRated
          exZeroWeight "Opt" :=
  c4_zero_weight_inert ["Zero", "Crit"] exOneRated exZeroWeight "Opt" "Zero" (by decide)

/-- C5: the ranked output is sorted by total score in descending order, is a
permutation of the input rows, and two rows with equal scores appear in their
original relative order (stable sort); being a pure function of the rows, the
output is deterministic for a fixed input. -/
theorem c5_ranked_output (rows : List (String × ℚ)) :
    (rankRows rows).Sorted scoreGE ∧
    (rankRows rows).Perm rows ∧
    ∀ a b : String × ℚ, a.2 = b.2 → [a, b].Sublist rows →
      [a, b].Sublist (rankRows rows) := by
  refine ⟨List.sorted_insertionSort scoreGE rows, List.perm_insertionSort scoreGE rows, ?_⟩
  intro a b hab hsub
  exact List.pair_sublist_insertionSort (show scoreGE a b from le_of_eq hab.symm) hsub

/-- Witness for C5 at the spec's tie scenario: two options both scoring 8.0
stay in their original key order. -/
theorem c5_ranked_output_witness :
    [("Option A", (8 : ℚ)), ("Option B", 8)].Sublist
      (rankRows [("Option A", 8), ("Option B", 8)]) :=
  (c5_ranked_output [("Option A", 8), ("Option B", 8)]).2.2 _ _ rfl (List.Sublist.refl _)

theorem lookup_isSome_iff {β : Type} (d : List (String × β)) (k : String) :
    (d.lookup k).isSome ↔ k ∈ d.map Prod.fst := by
  induction d with
  | nil => simp
  | cons kv d ih =>
    cases kv with
    | mk k' v =>
      by_cases h : k = k'
      · subst h
        simp [List.lookup]
      · have hb : (k == k') = false := by simpa using h
        simp [List.lookup, hb, ih, h]

theorem dictSet_map_fst {β : Type} (d : List (String × β)) (k : String) (v : β)
    (h : (d.lookup k).isSome) :
    (dictSet d k v).map Prod.fst = d.map Prod.fst := by
  unfold dictSet
  rw [if_pos h, List.map_map]
  refine List.map_congr_left fun kv _ => ?_
  by_cases hkv : kv.1 = k
  · simp [Function.comp, hkv]
  · simp [Function.comp, hkv]

theorem labelStep_keys (edits : String → String → String)
    (labels : List (String × String)) (i : ℕ) :
    (labelStep edits labels i).map Prod.fst
      = labels.map Prod.fst
        ++ (if optionKey i ∈ labels.map Prod.fst then [] else [optionKey i]) := by
  by_cases h : (labels.lookup (optionKey i)).isSome
  · have hm : optionKey i ∈ labels.map Prod.fst := (lookup_isSome_iff _ _).mp h
    simp only [labelStep, if_pos h]
    rw [dictSet_map_fst _ _ _ h, if_pos hm, List.append_nil]
  · have hm : optionKey i ∉ labels.map Prod.fst := fun hmem =>
      h ((lookup_isSome_iff _ _).mpr hmem)
    have h1 : ((labels ++ [(optionKey i, optionKey i)]).lookup (optionKey i)).isSome := by
      rw [lookup_isSome_iff]
      simp
    simp only [labelStep, if_neg h]
    rw [dictSet_map_fst _ _ _ h1, if_neg hm, List.map_append]
    rfl

theorem optionLabelsAfter_map_fst (edits : String → String → String)
    (init : List (String × String)) (n : ℕ) :
    (optionLabelsAfter edits init n).map Prod.fst = keysAfter (init.map Prod.fst) n := by
  induction n with
  | zero => rfl
  | succ m ih =>
    unfold optionLabelsAfter keysAfter
    rw [List.range_succ, List.foldl_append, List.foldl_append,
      List.foldl_cons, List.foldl_nil, List.foldl_cons, List.foldl_nil]
    rw [labelStep_keys]
    rw [show (List.range m).foldl (labelStep edits) init = optionLabelsAfter edits init m
        from rfl,
      show (List.range m).foldl
          (fun ks i => ks ++ (if optionKey i ∈ ks then [] else [optionKey i]))
          (init.map Prod.fst) = keysAfter (init.map Prod.fst) m from rfl, ih]

/-- The key generator `optionKey` is injective below index 26 (`Option A` … `Option Z`). -/
theorem optionKey_inj : ∀ i < 26, ∀ j < 26, optionKey i = optionKey j → i = j := by
  decide

theorem optionKey_not_mem_range (m : ℕ) (hm : m < 26) :
    optionKey m ∉ (List.range m).map optionKey := by
  intro hmem
  obtain ⟨i, hi, hik⟩ := List.mem_map.mp hmem
  rw [List.mem_range] at hi
  have : i = m := optionKey_inj i (lt_trans hi hm) m hm hik
  omega

theorem keysAfter_nil (n : ℕ) (hn : n ≤ 26) :
    keysAfter [] n = (List.range n).map optionKey := by
  induction n with
  | zero => rfl
  | succ m ih =>
    have hm : m < 26 := lt_of_lt_of_le (Nat.lt_succ_self m) hn
    unfold keysAfter
    rw [List.range_succ, List.foldl_append, List.foldl_cons, List.foldl_nil]
    rw [show (List.range m).foldl
        (fun ks i => ks ++ (if optionKey i ∈ ks then [] else [optionKey i])) [] =
        keysAfter [] m from rfl]
    rw [ih (le_of_lt hm), if_neg (optionKey_not_mem_range m hm)]
    rw [List.map_append]
    rfl

/-- C6: the option keys produced by the loop do not depend on the label edits
(relabeling never changes a key); starting from an empty dictionary the keys
are exactly `Option A`, `Option B`, … by position; and consequently the
per-key total scores (ratings are looked up by option key) are identical
across any two edit sessions. -/
theorem c6_option_keys (edits edits' : String → String → String)
    (init : List (String × String)) (n : ℕ) (hn : n ≤ 26) :
    (optionLabelsAfter edits init n).map Prod.fst
      = (optionLabelsAfter edits' init n).map Prod.fst ∧
    (optionLabelsAfter edits [] n).map Prod.fst = (List.range n).map optionKey ∧
    ∀ (lbl : String → String) (criteria : List String) (r : Ratings) (w : Weights),
      computeTotals ((optionLabelsAfter edits init n).map Prod.fst) lbl criteria r w
        = computeTotals ((optionLabelsAfter edits' init n).map Prod.fst) lbl criteria r w := by
  have h1 : (optionLabelsAfter edits init n).map Prod.fst
      = (optionLabelsAfter edits' init n).map Prod.fst := by
    rw [optionLabelsAfter_map_fst, optionLabelsAfter_map_fst]
  refine ⟨h1, ?_, fun lbl criteria r w => by rw [h1]⟩
  rw [optionLabelsAfter_map_fst]
  exact keysAfter_nil n hn

/-- Witness for C6 at three options, one edit session renaming every label and
one leaving all labels as their keys. -/
theorem c6_option_keys_witness :
    (optionLabelsAfter (fun _ cur => cur ++ "!") [] 3).map Prod.fst
      = (optionLabelsAfter (fun k _ => k) [] 3).map Prod.fst ∧
    (optionLabelsAfter (fun _ cur => cur ++ "!") [] 3).map Prod.fst
      = (List.range 3).map optionKey ∧
    ∀ (lbl : String → String) (criteria : List String) (r : Ratings) (w : Weights),
      computeTotals ((optionLabelsAfter (fun _ cur => cur ++ "!") [] 3).map Prod.fst)
          lbl criteria r w
        = computeTotals ((optionLabelsAfter (fun k _ => k) [] 3).map Prod.fst)
            lbl criteria r w :=
  c6_option_keys (fun _ cur => cur ++ "!") (fun k _ => k) [] 3 (by decide)

/-- The upload loop calls the uploader once per selected file and appends every
returned link to the existing list. -/
theorem uploadLoop_spec (urls : List String) (files : List String)
    (up : String → Option String) :
    (uploadLoop urls files up).2 = files.length ∧
    (uploadLoop urls files up).1 = urls ++ files.filterMap up := by
  induction files generalizing urls with
  | nil => simp [uploadLoop]
  | cons f fs ih =>
    cases hf : up f with
    | none => simp [uploadLoop, hf, ih]
    | some link => simp [uploadLoop, hf, ih]

/-- C7 as stated is false: with an existing persisted URL that already contains
the file name "a.jpg" as a substring, uploading "a.jpg" still performs one
upload call (not zero) and appends the newly returned link. -/
theorem c7_counterexample :
    ("a.jpg".toList <:+: "https://drive.google.com/uc?id=img_a.jpg".toList) ∧
    (uploadLoop ["https://drive.google.com/uc?id=img_a.jpg"] ["a.jpg"]
        (fun _ => some "https://drive.google.com/uc?id=NEW")).2 = 1 ∧
    (uploadLoop ["https://drive.google.com/uc?id=img_a.jpg"] ["a.jpg"]
        (fun _ => some "https://drive.google.com/uc?id=NEW")).1
      = ["https://drive.google.com/uc?id=img_a.jpg",
         "https://drive.google.com/uc?id=NEW"] := by
  refine ⟨⟨"https://drive.google.com/uc?id=img_".toList, [], by decide⟩, rfl, rfl⟩

/-- C7 corrected: the loop performs exactly one upload call per selected file,
with no duplicate check against the option's known URL list; every returned
link is appended regardless of existing entries. -/
theorem c7_amended_no_duplicate_check (urls : List String) (files : List String)
    (up : String → Option String) :
    (uploadLoop urls files up).2 = files.length ∧
    (uploadLoop urls files up).1 = urls ++ files.filterMap up :=
  uploadLoop_spec urls files up

theorem cleanupGo_length (removeOk : ℕ → Bool) (attempt fuel : ℕ) :
    (cleanupGo removeOk attempt fuel).2.length ≤ fuel := by
  induction fuel generalizing attempt with
  | zero => simp [cleanupGo]
  | succ f ih =>
    unfold cleanupGo
    by_cases h : removeOk attempt
    · simp [h]
    · simpa [h] using ih (attempt + 1)

theorem cleanupGo_delays (removeOk : ℕ → Bool) (attempt fuel : ℕ) :
    ∀ k (hk : k < (cleanupGo removeOk attempt fuel).2.length),
      (cleanupGo removeOk attempt fuel).2.get ⟨k, hk⟩
        = (1 / 10 : ℚ) * 2 ^ (attempt + k) := by
  induction fuel generalizing attempt with
  | zero => simp [cleanupGo]
  | succ f ih =>
    intro k hk
    by_cases h : removeOk attempt
    · simp [cleanupGo, h] at hk
    · have hcons : (cleanupGo removeOk attempt (f + 1)).2
          = (1 / 10 : ℚ) * 2 ^ attempt :: (cleanupGo removeOk (attempt + 1) f).2 := by
        simp [cleanupGo, h]
      cases k with
      | zero =>
        rw [List.get_of_eq hcons]
        simp
      | succ j =>
        have hj : j < (cleanupGo removeOk (attempt + 1) f).2.length := by
          have h2 := hk
          rw [hcons, List.length_cons] at h2
          omega
        have hrec := ih (attempt + 1) j hj
        rw [show attempt + (j + 1) = attempt + 1 + j from by omega]
        rw [List.get_of_eq hcons]
        simp only [List.get_eq_getElem] at hrec ⊢
        simpa using hrec

theorem cleanupGo_deleted (removeOk : ℕ → Bool) (attempt fuel : ℕ)
    (h : ∃ j, attempt ≤ j ∧ j < attempt + fuel ∧ removeOk j = true) :
    (cleanupGo removeOk attempt fuel).1 = true := by
  induction fuel generalizing attempt with
  | zero =>
    obtain ⟨j, h1, h2, _⟩ := h
    omega
  | succ f ih =>
    by_cases ha : removeOk attempt
    · simp [cleanupGo, ha]
    · obtain ⟨j, h1, h2, h3⟩ := h
      have hj : attempt + 1 ≤ j := by
        rcases Nat.eq_or_lt_of_le h1 with rfl | hlt
        · exact absurd h3 (by simp [ha])
        · exact hlt
      simp only [cleanupGo, ha, Bool.false_eq_true, ite_false]
      exact ih (attempt + 1) ⟨j, hj, by omega, h3⟩

/-- C9: the `finally` block's deletion runs regardless of whether the upload
succeeded or threw (the delays and deletion outcome do not depend on the API
outcome), it makes at most 5 removal attempts, each failed attempt `k` sleeps
exactly `0.1 * 2 ^ k` seconds, and when some attempt among the first 5
succeeds the temporary file is deleted. -/
theorem c9_temp_file_cleanup (env : UploadEnv) :
    (upload_to_drive env).2.2.length ≤ 5 ∧
    (∀ k (hk : k < (upload_to_drive env).2.2.length),
      (upload_to_drive env).2.2.get ⟨k, hk⟩ = (1 / 10 : ℚ) * 2 ^ k) ∧
    ((∃ k, k < 5 ∧ env.removeOk k = true) → (upload_to_drive env).2.1 = true) ∧
    (∀ id1 id2 : Option String,
      (upload_to_drive { env with driveId := id1 }).2
        = (upload_to_drive { env with driveId := id2 }).2) := by
  refine ⟨?_, ?_, ?_, fun id1 id2 => rfl⟩
  · by_cases h : env.tmpCreated
    · simpa [upload_to_drive, h] using cleanupGo_length env.removeOk 0 5
    · simp [upload_to_drive, h]
  · intro k hk
    by_cases h : env.tmpCreated
    · have hk' : k < (cleanupGo env.removeOk 0 5).2.length := by
        simpa [upload_to_drive, cleanup, h] using hk
      have := cleanupGo_delays env.removeOk 0 5 k hk'
      simpa [upload_to_drive, cleanup, h] using this
    · simp [upload_to_drive, h] at hk
  · intro hex
    by_cases h : env.tmpCreated
    · have := cleanupGo_deleted env.removeOk 0 5
        (by obtain ⟨k, hk5, hk⟩ := hex; exact ⟨k, Nat.zero_le k, by omega, hk⟩)
      simpa [upload_to_drive, cleanup, h] using this
    · simp [upload_to_drive, h]

/-- Witness for C9: temp file created, upload succeeded, removal succeeds from
the third attempt on — the file is deleted and the first back-off delay is
0.1 seconds. -/
theorem c9_temp_file_cleanup_witness :
    (upload_to_drive ⟨true, some "X", fun k => decide (2 ≤ k)⟩).2.1 = true ∧
    (upload_to_drive ⟨true, some "X", fun k => decide (2 ≤ k)⟩).2.2.length ≤ 5 :=
  ⟨(c9_temp_file_cleanup ⟨true, some "X", fun k => decide (2 ≤ k)⟩).2.2.1
      ⟨2, by decide, by decide⟩,
    (c9_temp_file_cleanup ⟨true, some "X", fun k => decide (2 ≤ k)⟩).1⟩

/-- C10: `upload_to_drive` never propagates an exception: every error of the
body is swallowed (`except Exception: pass`) and the function returns `None`;
consequently a caller's URL list is left unchanged when every upload fails,
and no error indication is produced. -/
theorem c10_failures_swallowed (env : UploadEnv) :
    ((∃ e, uploadBody env = Except.error e) → (upload_to_drive env).1 = none) ∧
    ((upload_to_drive env).1 = none ∨ ∃ u, (upload_to_drive env).1 = some u) ∧
    (∀ (urls files : List String) (up : String → Option String),
      (∀ f, up f = none) → (uploadLoop urls files up).1 = urls) := by
  refine ⟨?_, ?_, ?_⟩
  · rintro ⟨e, he⟩
    simp [upload_to_drive, he]
  · rcases hr : (upload_to_drive env).1 with _ | u
    · exact Or.inl rfl
    · exact Or.inr ⟨u, rfl⟩
  · intro urls files up hup
    rw [(uploadLoop_spec urls files up).2]
    have : files.filterMap up = [] := by
      rw [List.filterMap_eq_nil_iff]
      exact fun f _ => hup f
    rw [this, List.append_nil]

/-- Witness for C10: with temp-file creation failing, the call returns `None`
and a caller's URL list is unchanged. -/
theorem c10_failures_swallowed_witness :
    (upload_to_drive ⟨false, none, fun _ => true⟩).1 = none ∧
    (uploadLoop ["https://u"] ["f.jpg"] (fun _ => none)).1 = ["https://u"] :=
  ⟨(c10_failures_swallowed ⟨false, none, fun _ => true⟩).1 ⟨"tempfile", rfl⟩,
    (c10_failures_swallowed ⟨false, none, fun _ => true⟩).2.2 ["https://u"] ["f.jpg"]
      (fun _ => none) (fun _ => rfl)⟩

theorem map_fst_pairing {β : Type} (l : List String) (f : String → β) :
    (l.map (fun c => (c, f c))).map Prod.fst = l := by
  induction l with
  | nil => rfl
  | cons c cs ih => simp only [List.map_cons, ih]

/-- C8: every issued persistence write — at each of the five sites: options,
criteria+weights, comments, full-scores and overview — replaces the whole
table with the computed snapshot, so the post-state does not depend on the
previous table content (never an incremental patch); and each snapshot
references only currently active entities: the criteria table's keys are
exactly the active criteria list, every comment row names an active criterion
and an active option's label with its non-empty comment, every full-scores
row names an active criterion and option, and the overview rows are keyed by
exactly the active criteria list. -/
theorem c8_full_overwrite
    (criteria options : List String) (labels : String → String)
    (comments : String → String → String) (r : Ratings) (w : Weights)
    (optionLabels imageUrls : List (String × String)) :
    (∀ old : List (List String),
      applySave old (saveOptions optionLabels imageUrls)
        = optionsSnapshot optionLabels imageUrls) ∧
    (∀ old : List (String × ℚ),
      applySave old (saveCriteria criteria w) = setupSnapshot criteria w) ∧
    (setupSnapshot criteria w).map Prod.fst = criteria ∧
    (∀ (old old' : List (String × String × String))
        (rows : List (String × String × String)),
      saveComments criteria options labels comments = some rows →
        applySave old (saveComments criteria options labels comments) = rows ∧
        applySave old' (saveComments criteria options labels comments) = rows ∧
        ∀ e ∈ rows, e.1 ∈ criteria ∧
          ∃ opt ∈ options, e.2.1 = labels opt ∧ e.2.2 = comments e.1 opt ∧
            comments e.1 opt ≠ "") ∧
    (∀ (old : List (String × String × String × ℤ))
        (rows : List (String × String × String × ℤ)),
      saveFullScores options criteria r = some rows →
        applySave old (saveFullScores options criteria r) = rows ∧
        ∀ e ∈ rows, e.1 ∈ criteria ∧ e.2.2.1 ∈ options) ∧
    (∀ (old old' : List (String × List (Option ℚ)))
        (rows : List (String × List (Option ℚ))),
      saveOverview options criteria r = some rows →
        applySave old (saveOverview options criteria r) = rows ∧
        applySave old' (saveOverview options criteria r) = rows) ∧
    (overviewSnapshot options criteria r).map Prod.fst = criteria := by
  refine ⟨fun old => rfl, fun old => rfl, map_fst_pairing criteria _, ?_, ?_,
    fun old old' rows hw => ⟨by rw [hw]; rfl, by rw [hw]; rfl⟩,
    map_fst_pairing criteria _⟩
  · intro old old' rows hw
    have hap : ∀ o : List (String × String × String),
        applySave o (saveComments criteria options labels comments) = rows := by
      intro o
      rw [hw]
      rfl
    refine ⟨hap old, hap old', ?_⟩
    intro e he
    have hrows : rows = commentsSnapshot criteria options labels comments := by
      by_cases hnil : commentsSnapshot criteria options labels comments = []
      · simp [saveComments, hnil] at hw
      · simp [saveComments, hnil] at hw
        exact hw.symm
    rw [hrows] at he
    obtain ⟨crit, hcrit, he⟩ := List.mem_flatMap.mp he
    obtain ⟨opt, hopt, he⟩ := List.mem_filterMap.mp he
    by_cases hc : comments crit opt = ""
    · simp [hc] at he
    · simp only [hc, if_neg, ite_false] at he
      obtain rfl := Option.some.inj he
      exact ⟨hcrit, opt, hopt, rfl, rfl, hc⟩
  · intro old rows hw
    have hrows : rows = allScores options criteria r := by
      by_cases hnil : allScores options criteria r = []
      · simp [saveFullScores, hnil] at hw
      · simp [saveFullScores, hnil] at hw
        exact hw.symm
    refine ⟨by rw [hw]; rfl, ?_⟩
    intro e he
    rw [hrows] at he
    obtain ⟨opt, hopt, he⟩ := List.mem_flatMap.mp he
    obtain ⟨crit, hcrit, he⟩ := List.mem_flatMap.mp he
    obtain ⟨p, _, he⟩ := List.mem_map.mp he
    obtain rfl := he.symm
    exact ⟨hcrit, hopt⟩

/-- Witness for C8 at a single criterion, option and comment. -/
theorem c8_full_overwrite_witness :
    applySave ([("stale", "s", "t")] : List (String × String × String))
        (saveComments ["c"] ["o"] (fun k => k) (fun _ _ => "hi"))
      = [("c", "o", "hi")] ∧
    applySave ([] : List (String × String × String × ℤ))
        (saveFullScores ["o"] ["c"] (fun _ _ _ => some 4))
      = [("c", "Maya", "o", 4), ("c", "Mike", "o", 4)] ∧
    applySave ([("stale", [(none : Option ℚ)])] : List (String × List (Option ℚ)))
        (saveOverview ["o"] ["c"] (fun _ _ _ => some 4))
      = overviewSnapshot ["o"] ["c"] (fun _ _ _ => some 4) :=
  ⟨((c8_full_overwrite ["c"] ["o"] (fun k => k) (fun _ _ => "hi") (fun _ _ _ => some 4)
        (fun _ => none) [] []).2.2.2.1 [("stale", "s", "t")] []
      [("c", "o", "hi")] (by decide)).1,
    ((c8_full_overwrite ["c"] ["o"] (fun k => k) (fun _ _ => "hi") (fun _ _ _ => some 4)
        (fun _ => none) [] []).2.2.2.2.1 []
      [("c", "Maya", "o", 4), ("c", "Mike", "o", 4)] (by decide)).1,
    ((c8_full_overwrite ["c"] ["o"] (fun k => k) (fun _ _ => "hi") (fun _ _ _ => some 4)
        (fun _ => none) [] []).2.2.2.2.2.1 [("stale", [none])] []
      (overviewSnapshot ["o"] ["c"] (fun _ _ _ => some 4)) rfl).1⟩

theorem lookup_map_replace {β : Type} (d : List (String × β)) (k : String) (v : β)
    (h : (d.lookup k).isSome) :
    (d.map (fun kv => if kv.1 = k then (k, v) else kv)).lookup k = some v := by
  induction d with
  | nil => simp at h
  | cons kv d ih =>
    obtain ⟨k', v'⟩ := kv
    rw [List.map_cons]
    simp only []
    by_cases hk : k' = k
    · subst hk
      rw [if_pos rfl]
      simp [List.lookup]
    · rw [if_neg hk]
      have hb : (k == k') = false := by
        simp only [beq_eq_false_iff_ne]
        exact Ne.symm hk
      have h' : (d.lookup k).isSome := by
        simpa [List.lookup, hb] using h
      simp only [List.lookup, hb]
      exact ih h'

theorem lookup_append_last {β : Type} (d : List (String × β)) (k : String) (v : β)
    (h : ¬(d.lookup k).isSome) :
    ((d ++ [(k, v)]).lookup k) = some v := by
  induction d with
  | nil => simp [List.lookup]
  | cons kv d ih =>
    cases kv with
    | mk k' v' =>
      by_cases hk : k = k'
      · subst hk
        simp [List.lookup] at h
      · have hb : (k == k') = false := by simpa using hk
        have h' : ¬(d.lookup k).isSome := by
          simpa [List.lookup, hb] using h
        simp [List.lookup, hb, ih h']

theorem dictSet_lookup_self {β : Type} (d : List (String × β)) (k : String) (v : β) :
    (dictSet d k v).lookup k = some v := by
  unfold dictSet
  by_cases h : (d.lookup k).isSome
  · rw [if_pos h]
    exact lookup_map_replace d k v h
  · rw [if_neg h]
    exact lookup_append_last d k v h

/-- A gated save reports a write exactly when `shouldPersist` is true. -/
theorem gatedSave_fst (st : List (String × String)) (label : String) (p : Payload) :
    (gatedSave st label p).1 = shouldPersist st label p := by
  unfold gatedSave
  by_cases h : shouldPersist st label p
  · simp [h]
  · simp [h]

/-- After a gated save, the label's recorded digest is the payload's digest
(either just written, or already present when the write was skipped). -/
theorem gatedSave_lookup (st : List (String × String)) (label : String) (p : Payload) :
    ((gatedSave st label p).2).lookup label = some (digest p) := by
  unfold gatedSave
  by_cases h : shouldPersist st label p
  · rw [if_pos h]
    exact dictSet_lookup_self st label (digest p)
  · rw [if_neg h]
    unfold shouldPersist at h
    simpa using h

/-- The serialization of a mapping payload is invariant under permuting the
insertion order of its fields. -/
theorem serialize_obj_perm (fields fields' : List (String × Payload))
    (h : fields.Perm fields') :
    serialize (.obj fields) = serialize (.obj fields') := by
  have hmap : ∀ fs : List (String × Payload),
      fs.attach.map (fun kv => "\x22" ++ kv.1.1 ++ "\x22:" ++ serialize kv.1.2)
        = fs.map (fun kv => "\x22" ++ kv.1 ++ "\x22:" ++ serialize kv.2) := by
    intro fs
    exact List.attach_map_val fs (fun kv => "\x22" ++ kv.1 ++ "\x22:" ++ serialize kv.2)
  have hperm :
      (fields.map (fun kv => "\x22" ++ kv.1 ++ "\x22:" ++ serialize kv.2)).Perm
        (fields'.map (fun kv => "\x22" ++ kv.1 ++ "\x22:" ++ serialize kv.2)) :=
    h.map _
  have hsorted : ∀ l : List String,
      (l.mergeSort (fun a b => a ≤ b)).Sorted (· ≤ ·) := fun l =>
    List.sorted_mergeSort' l
  have heq :
      ((fields.map (fun kv => "\x22" ++ kv.1 ++ "\x22:" ++ serialize kv.2)).mergeSort
          (fun a b => a ≤ b))
        = ((fields'.map (fun kv => "\x22" ++ kv.1 ++ "\x22:" ++ serialize kv.2)).mergeSort
          (fun a b => a ≤ b)) := by
    refine List.eq_of_perm_of_sorted ?_ (hsorted _) (hsorted _)
    exact ((List.mergeSort_perm _ _).trans hperm).trans (List.mergeSort_perm _ _).symm
  simp only [serialize]
  rw [hmap, hmap, heq]

/-- C2 (spec-modelled): after a successful gated write of a payload under a
label, a second call with a structurally identical payload — the same mapping
key/value pairs in any insertion order — returns false and issues no write;
a payload whose digest differs from the recorded one, or a label without a
recorded digest, yields true; and a write is issued exactly when
`shouldPersist` returns true. -/
theorem c2_change_guard (st : List (String × String)) (label : String)
    (fields fields' : List (String × Payload)) (p q : Payload) :
    (fields.Perm fields' →
      shouldPersist (gatedSave st label (.obj fields)).2 label (.obj fields') = false ∧
      (gatedSave (gatedSave st label (.obj fields)).2 label (.obj fields')).1 = false) ∧
    (st.lookup label = none → shouldPersist st label p = true) ∧
    (digest p ≠ digest q → shouldPersist (gatedSave st label p).2 label q = true) ∧
    (gatedSave st label p).1 = shouldPersist st label p := by
  refine ⟨?_, ?_, ?_, ?_⟩
  · intro hp
    have hl := gatedSave_lookup st label (.obj fields)
    have hd : digest (.obj fields) = digest (.obj fields') :=
      serialize_obj_perm fields fields' hp
    have h1 : shouldPersist (gatedSave st label (.obj fields)).2 label (.obj fields')
        = false := by
      simp [shouldPersist, hl, hd]
    exact ⟨h1, (gatedSave_fst _ _ _).trans h1⟩
  · intro hn
    simp [shouldPersist, hn]
  · intro hne
    have hl := gatedSave_lookup st label p
    unfold shouldPersist
    rw [hl]
    simp only [bne_iff_ne, ne_eq, Option.some.injEq]
    exact hne
  · exact gatedSave_fst st label p

unseal serialize List.mergeSort List.merge in
/-- Witness for C2: recording the payload then re-offering it with permuted
field order yields false; a fresh label yields true; a changed value yields
true. -/
theorem c2_change_guard_witness :
    shouldPersist (gatedSave [] "options" (.obj exFields)).2 "options"
      (.obj exFields') = false ∧
    shouldPersist [] "options" (.obj exFields) = true ∧
    shouldPersist (gatedSave [] "options" (.obj exFields)).2 "options"
      (.num 2) = true :=
  ⟨((c2_change_guard [] "options" exFields exFields' (.obj exFields) (.num 2)).1
      (List.Perm.swap ("b", Payload.str "x") ("a", Payload.num 1) [])).1,
    (c2_change_guard [] "options" exFields exFields' (.obj exFields) (.num 2)).2.1 rfl,
    (c2_change_guard [] "options" exFields exFields' (.obj exFields) (.num 2)).2.2.1
      (by decide)⟩

end DecisionMatrix

